import Mathlib

/-!
Verification of the Mixed processor pipeline stage
(`src/fusequery/query/src/pipelines/processors/processor_mixed.rs`).

The `MixedWorker` fans M upstream streams into one merged stream and
redistributes it round-robin over N output channels; `MixedProcessor` is a
cloneable handle carrying one output-slot index.  The Rust code guards every
worker mutation with one `RwLock` write lock (`execute`, `connect_to`) or uses
atomics under a read lock (`share`), so every API call's effect on the worker
is a serialized state transition; we embed the worker as a pure state machine
whose operations are those transitions.  `ctx.execute_task` (task spawning)
can itself fail, so the distributor-spawn outcome is a parameter of `start`.
The `usize` counters (`shared_num` and the distributor's routing counter) are
modelled as `ℕ`: `fetch_add` increments by one per call and its wraparound at
2^64 is ignored.  The tokio `mpsc` channel used for fan-in delivers each
sender's messages in send order, so the merged stream observed by the receiver
is an interleaving of the per-branch forwarded sequences; the `Interleaving`
relation below captures exactly that.
-/

namespace MixedProc

/-- Error values produced by this file of the source.  `common_exception`'s
`ErrorCode` is external to the excerpt; we model the two constructors the
mixed processor actually builds, each carrying its message string. -/
inductive ErrorCode where
  | illegalTransformConnectionState (msg : String)
  | logicalError (msg : String)
  deriving DecidableEq, Repr

/-- An opaque data block (`common_datablocks::DataBlock`); its payload is
irrelevant to the mixed processor, which only moves blocks around. -/
structure DataBlock where
  id : Nat
  deriving DecidableEq, Repr

/-- One item of a data-block stream: `Result<DataBlock, ErrorCode>`. -/
inductive Item where
  | ok (block : DataBlock)
  | err (e : ErrorCode)
  deriving DecidableEq, Repr

/-- An upstream processor, as the mixed worker observes it through
`input.execute().await`: either the `execute` call itself fails, or it yields
a finite stream of items (each a block or an in-band error). -/
inductive Upstream where
  | execFail (e : ErrorCode)
  | stream (items : List Item)
  deriving DecidableEq, Repr

/-- The item-forwarding loop of one fan-in branch task
(`prepare_inputstream`, the `while let Some(item) = stream.next()` loop):
`Ok` items are forwarded and pulling continues; the first `Err` item is
forwarded and the branch returns ("stop pulling data"). -/
def forwardItems : List Item → List Item
  | [] => []
  | Item.ok b :: rest => Item.ok b :: forwardItems rest
  | Item.err e :: _ => [Item.err e]

/-- The whole of one fan-in branch task (`prepare_inputstream`'s
`execute_task` closure): if the upstream's `execute()` fails, one error item
is sent and the task returns; otherwise the stream is forwarded by
`forwardItems`.  Sends into the shared channel are modelled as succeeding
(the merged-stream receiver is alive while the claims' scenarios run). -/
def branchForward : Upstream → List Item
  | Upstream.execFail e => [Item.err e]
  | Upstream.stream items => forwardItems items

/-- Embedding of `MixedWorker::prepare_inputstream`: with zero registered inputs it
returns the illegal-connection-state error having spawned nothing; otherwise
it spawns one branch task per input (second component counts the
`ctx.execute_task` calls made) and succeeds, the merged stream being fed by
the per-branch forwarded sequences. -/
def prepare_inputstream (inputs : List Upstream) :
    Except ErrorCode (List (List Item)) × Nat :=
  match inputs.length with
  | 0 => (Except.error
      (ErrorCode.illegalTransformConnectionState
        "Mixed processor inputs cannot be zero"), 0)
  | Nat.succ _ => (Except.ok (inputs.map branchForward), inputs.length)

/-- The relation `Interleaving bs merged` holds when `merged` is one possible arrival
order on the fan-in `mpsc` channel whose senders emit the sequences `bs`:
at each step the head of some branch is delivered, and the stream ends when
every branch is exhausted (all senders dropped, channel drained). -/
inductive Interleaving : List (List Item) → List Item → Prop where
  | done : ∀ bs : List (List Item), (∀ b ∈ bs, b = []) → Interleaving bs []
  | deliver : ∀ (bs : List (List Item)) (i : Nat) (x : Item) (rest : List Item)
      (merged : List Item), bs[i]? = some (x :: rest) →
      Interleaving (bs.set i rest) merged → Interleaving bs (x :: merged)

/-- The ways the embedded Rust fragments can panic: `%` by zero in the
distributor, a `Vec` index out of bounds, and `Option::unwrap` on `None` in
`MixedProcessor::execute`. -/
inductive RustPanic where
  | remainderByZero
  | indexOutOfBounds
  | unwrapNone
  deriving DecidableEq, Repr

/-- The fan-out distributor task spawned by `MixedWorker::start`: for each
item of the merged stream it computes `i = counter % outputs` (a Rust `%`,
which panics when `outputs = 0`), sends the item to channel `i`, and
increments the counter.  The result tags each merged item with the output
channel it was routed to. -/
def distributorRun (outputs : Nat) : Nat → List Item →
    Except RustPanic (List (Nat × Item))
  | _, [] => Except.ok []
  | counter, item :: rest =>
    if outputs = 0 then Except.error RustPanic.remainderByZero
    else (distributorRun outputs (counter + 1) rest).map
      (fun tl => (counter % outputs, item) :: tl)

/-- The sequence received on output channel `j`: the merged items the
distributor routed to `j`, in routing order (a panicking run delivers
nothing meaningful; we return `[]` there). -/
def outputChannel (outputs : Nat) (merged : List Item) (j : Nat) : List Item :=
  match distributorRun outputs 0 merged with
  | Except.error _ => []
  | Except.ok tagged => (tagged.filter (fun p => p.1 == j)).map Prod.snd

/-- A receiving channel end, tagged by which `start` attempt allocated it
(`batch`) and its slot within that attempt's loop; slot `s` of batch `b` is
the receiver pushed at position `b * n + s` of `receivers`. -/
structure Receiver where
  batch : Nat
  slot : Nat
  deriving DecidableEq, Repr

/-- The `MixedWorker` state.  `inputs`, `n`, `sharedNum`, `started`,
`receivers` mirror the Rust fields; `startAttempts`, `branchTasks`,
`distTasks` and `distributorBatch` are ghost observations recording how many
times the start path ran past the `started` check, how many branch and
distributor tasks were spawned (the counter P2 asks to instrument), and
which receiver batch the spawned distributor's senders feed. -/
structure MixedWorker where
  inputs : List Upstream
  n : Nat
  sharedNum : Nat
  started : Bool
  receivers : List (Option Receiver)
  startAttempts : Nat
  branchTasks : Nat
  distTasks : Nat
  distributorBatch : Option Nat
  deriving DecidableEq, Repr

/-- Embedding of `MixedWorker::start`, as executed under the handle's write lock.  If
`started` is set it returns at once.  Otherwise it first pushes `n` fresh
receiver slots (the channel-allocation loop runs before any fallible step),
then calls `prepare_inputstream` (propagating its error), then spawns the
distributor (`spawnResult` is the outcome of that `ctx.execute_task` call,
propagated on failure), and only after a successful spawn sets `started`. -/
def MixedWorker.start (w : MixedWorker) (spawnResult : Except ErrorCode Unit) :
    MixedWorker × Except ErrorCode Unit :=
  if w.started then (w, Except.ok ())
  else
    let batch := w.startAttempts
    let w1 : MixedWorker := { w with
      receivers := w.receivers ++
        (List.range w.n).map (fun slot => some { batch := batch, slot := slot }),
      startAttempts := w.startAttempts + 1 }
    match (prepare_inputstream w.inputs).1 with
    | Except.error e => (w1, Except.error e)
    | Except.ok _ =>
      let w2 : MixedWorker := { w1 with
        branchTasks := w1.branchTasks + (prepare_inputstream w.inputs).2 }
      match spawnResult with
      | Except.error e => (w2, Except.error e)
      | Except.ok _ => ({ w2 with
          distTasks := w2.distTasks + 1,
          distributorBatch := some batch,
          started := true }, Except.ok ())

/-- What `MixedProcessor::execute` can do: return a stream (wrapping the
receiver it took), return a typed error, or panic. -/
inductive ExecOutcome where
  | stream (r : Receiver)
  | failure (e : ErrorCode)
  | panic (p : RustPanic)
  deriving DecidableEq, Repr

/-- Embedding of `MixedProcessor::execute` acting on the worker: under the write lock it
runs `start()?`, then `receivers[index]` (panicking if `index` is out of
bounds), `.take()` on that slot, and then `.unwrap()` outside the lock
(panicking if the slot was already empty). -/
def executeOn (w : MixedWorker) (index : Nat)
    (spawnResult : Except ErrorCode Unit) : MixedWorker × ExecOutcome :=
  match w.start spawnResult with
  | (w1, Except.error e) => (w1, ExecOutcome.failure e)
  | (w1, Except.ok _) =>
    match w1.receivers[index]? with
    | none => (w1, ExecOutcome.panic RustPanic.indexOutOfBounds)
    | some none => (w1, ExecOutcome.panic RustPanic.unwrapNone)
    | some (some r) =>
      ({ w1 with receivers := w1.receivers.set index none },
        ExecOutcome.stream r)

/-- A worker together with the ghost list of the indices of every handle
issued so far (the creator's and each successful `share`'s), in issuance
order. -/
structure SysState where
  worker : MixedWorker
  handles : List Nat
  deriving DecidableEq, Repr

/-- Embedding of `MixedProcessor::create`: a fresh worker with no inputs, fan-out width
`n`, `shared_num` initialized to 0 and immediately bumped by the creator's
`fetch_add`, which issues the creator handle at index 0.  No check against
`n` is made. -/
def create (n : Nat) : SysState :=
  { worker := { inputs := [], n := n, sharedNum := 0 + 1, started := false,
                receivers := [], startAttempts := 0, branchTasks := 0,
                distTasks := 0, distributorBatch := none },
    handles := [0] }

/-- Embedding of `MixedProcessor::share`: `fetch_add` the counter unconditionally (the
increment happens whether or not the call succeeds), then fail with the
overflow error if the pre-increment value was `≥ n`, else issue a handle at
that pre-increment index. -/
def share (s : SysState) : SysState × Except ErrorCode Nat :=
  let pre := s.worker.sharedNum
  let w1 : MixedWorker := { s.worker with sharedNum := pre + 1 }
  if pre ≥ s.worker.n then
    ({ s with worker := w1 },
      Except.error (ErrorCode.logicalError "Mixed shared num overflow"))
  else
    ({ worker := w1, handles := s.handles ++ [pre] }, Except.ok pre)

/-- Embedding of `MixedProcessor::connect_to`: append one upstream to the shared worker's
input list (under the write lock). -/
def connect (s : SysState) (u : Upstream) : SysState :=
  { s with worker := { s.worker with inputs := s.worker.inputs ++ [u] } }

/-- Embedding of `MixedProcessor::execute` from the handle of the given index, lifted to
the system state. -/
def executeHandle (s : SysState) (index : Nat)
    (spawnResult : Except ErrorCode Unit) : SysState × ExecOutcome :=
  ({ s with worker := (executeOn s.worker index spawnResult).1 },
    (executeOn s.worker index spawnResult).2)

/-- One API step available to the owners of the handles: wiring an upstream,
sharing, or executing one of the issued handles. -/
inductive Step : SysState → SysState → Prop where
  | connect : ∀ (s : SysState) (u : Upstream), Step s (connect s u)
  | share : ∀ s : SysState, Step s (share s).1
  | execute : ∀ (s : SysState) (index : Nat)
      (spawnResult : Except ErrorCode Unit), index ∈ s.handles →
      Step s (executeHandle s index spawnResult).1

/-- The states reachable from `create n` by API steps. -/
inductive Reach : SysState → Prop where
  | created : ∀ n : Nat, Reach (create n)
  | step : ∀ s t : SysState, Reach s → Step s t → Reach t

/-- Iterating `j` successive `share()` calls (their results discarded), used to talk
about retrying `share` after it has started failing. -/
def shareSteps : Nat → SysState → SysState
  | 0, s => s
  | j + 1, s => shareSteps j (share s).1

theorem share_worker_n (s : SysState) : (share s).1.worker.n = s.worker.n := by
  by_cases h : s.worker.sharedNum ≥ s.worker.n <;> simp [share, h]

theorem share_worker_sharedNum (s : SysState) :
    (share s).1.worker.sharedNum = s.worker.sharedNum + 1 := by
  by_cases h : s.worker.sharedNum ≥ s.worker.n <;> simp [share, h]

theorem shareSteps_worker_n (j : Nat) (s : SysState) :
    (shareSteps j s).worker.n = s.worker.n := by
  induction j generalizing s with
  | zero => rfl
  | succ j ih => rw [shareSteps, ih, share_worker_n]

theorem shareSteps_worker_sharedNum (j : Nat) (s : SysState) :
    (shareSteps j s).worker.sharedNum = s.worker.sharedNum + j := by
  induction j generalizing s with
  | zero => rfl
  | succ j ih => rw [shareSteps, ih, share_worker_sharedNum]; omega

theorem share_ok_of_lt (s : SysState) (h : s.worker.sharedNum < s.worker.n) :
    (share s).2 = Except.ok s.worker.sharedNum := by
  simp [share, Nat.not_le.mpr h]

theorem share_error_of_ge (s : SysState) (h : s.worker.n ≤ s.worker.sharedNum) :
    (share s).2 = Except.error (ErrorCode.logicalError "Mixed shared num overflow") := by
  simp [share, h]

/-- C3: with fan-out width `n = k ≥ 1`, the creator's `fetch_add` leaves
`shared_num = 1`, the next `k - 1` `share()` calls succeed (issuing indices
`1, …, k-1`), and from then on every `share()` call — including every retry
after a failure — fails with exactly the "Mixed shared num overflow" error:
a failed call bumps `shared_num` but the test `index >= n` keeps failing, so
the failure is deterministic and stable. -/
theorem share_overflow_stable (k : Nat) (hk : 1 ≤ k) :
    (∀ j, j < k - 1 → (share (shareSteps j (create k))).2 = Except.ok (1 + j)) ∧
    (∀ j, k - 1 ≤ j → (share (shareSteps j (create k))).2 =
      Except.error (ErrorCode.logicalError "Mixed shared num overflow")) := by
  have hn : ∀ j, (shareSteps j (create k)).worker.n = k := by
    intro j; rw [shareSteps_worker_n]; rfl
  have hs : ∀ j, (shareSteps j (create k)).worker.sharedNum = 1 + j := by
    intro j; rw [shareSteps_worker_sharedNum]; rfl
  constructor
  · intro j hj
    have := share_ok_of_lt (shareSteps j (create k)) (by rw [hn, hs]; omega)
    rwa [hs] at this
  · intro j hj
    exact share_error_of_ge (shareSteps j (create k)) (by rw [hn, hs]; omega)

/-- C3 witness at k = 2: the creator plus one share succeed, the next two
share attempts both fail with the overflow error. -/
theorem share_overflow_stable_witness :
    (share (shareSteps 0 (create 2))).2 = Except.ok 1 ∧
    (share (shareSteps 1 (create 2))).2 =
      Except.error (ErrorCode.logicalError "Mixed shared num overflow") ∧
    (share (shareSteps 2 (create 2))).2 =
      Except.error (ErrorCode.logicalError "Mixed shared num overflow") :=
  ⟨(share_overflow_stable 2 (by omega)).1 0 (by omega),
   (share_overflow_stable 2 (by omega)).2 1 (by omega),
   (share_overflow_stable 2 (by omega)).2 2 (by omega)⟩

theorem start_of_started (w : MixedWorker) (spawnResult : Except ErrorCode Unit)
    (h : w.started = true) : w.start spawnResult = (w, Except.ok ()) := by
  simp [MixedWorker.start, h]

/-- C4: a mixing stage with zero registered upstreams is rejected: the
stream-preparation call returns the illegal-connection-state error having
spawned zero tasks; with one or more upstreams that error branch is not
taken; and an `execute()` that triggers the first `start()` on a worker with
no inputs fails synchronously with that error, with no branch task and no
distributor task spawned. -/
theorem zero_inputs_rejected :
    prepare_inputstream [] =
      (Except.error (ErrorCode.illegalTransformConnectionState
        "Mixed processor inputs cannot be zero"), 0) ∧
    (∀ inputs : List Upstream, inputs ≠ [] →
      prepare_inputstream inputs =
        (Except.ok (inputs.map branchForward), inputs.length)) ∧
    (∀ (w : MixedWorker) (index : Nat) (spawnResult : Except ErrorCode Unit),
      w.inputs = [] → w.started = false →
      (executeOn w index spawnResult).2 =
        ExecOutcome.failure (ErrorCode.illegalTransformConnectionState
          "Mixed processor inputs cannot be zero") ∧
      (executeOn w index spawnResult).1.branchTasks = w.branchTasks ∧
      (executeOn w index spawnResult).1.distTasks = w.distTasks) := by
  refine ⟨rfl, ?_, ?_⟩
  · intro inputs hne
    rcases inputs with _ | ⟨u, rest⟩
    · exact absurd rfl hne
    · rfl
  · intro w index spawnResult hin hst
    have hprep : (prepare_inputstream w.inputs).1 =
        Except.error (ErrorCode.illegalTransformConnectionState
          "Mixed processor inputs cannot be zero") := by
      rw [hin]; rfl
    have hstart : w.start spawnResult =
        ({ w with
            receivers := w.receivers ++ (List.range w.n).map
              (fun slot => some { batch := w.startAttempts, slot := slot }),
            startAttempts := w.startAttempts + 1 },
          Except.error (ErrorCode.illegalTransformConnectionState
            "Mixed processor inputs cannot be zero")) := by
      rw [MixedWorker.start]
      simp only [hst, Bool.false_eq_true, if_false, hprep]
    simp [executeOn, hstart]

/-- C4 witness: the concrete rejection at a fresh two-wide worker with no
inputs, and the non-rejection with one input wired. -/
theorem zero_inputs_rejected_witness :
    prepare_inputstream [Upstream.stream [Item.ok ⟨1⟩]] =
      (Except.ok [[Item.ok ⟨1⟩]], 1) ∧
    (executeOn (create 2).worker 0 (Except.ok ())).2 =
      ExecOutcome.failure (ErrorCode.illegalTransformConnectionState
        "Mixed processor inputs cannot be zero") := by
  constructor
  · have h := zero_inputs_rejected.2.1 [Upstream.stream [Item.ok ⟨1⟩]] (by decide)
    simpa using h
  · exact (zero_inputs_rejected.2.2 (create 2).worker 0 (Except.ok ()) rfl rfl).1

theorem start_ok_started (w : MixedWorker) (spawnResult : Except ErrorCode Unit)
    (h : (w.start spawnResult).2 = Except.ok ()) :
    (w.start spawnResult).1.started = true := by
  cases hb : w.started with
  | true => rw [start_of_started w spawnResult hb]; exact hb
  | false =>
    rcases hp : (prepare_inputstream w.inputs).1 with e1 | bs
    · rw [MixedWorker.start] at h; simp [hb, hp] at h
    · rcases spawnResult with e2 | u
      · rw [MixedWorker.start] at h; simp [hb, hp] at h
      · rw [MixedWorker.start]; simp [hb, hp]

theorem start_error_state (w : MixedWorker) (spawnResult : Except ErrorCode Unit)
    (e : ErrorCode) (h : (w.start spawnResult).2 = Except.error e) :
    w.started = false ∧
    (w.start spawnResult).1.started = false ∧
    (w.start spawnResult).1.receivers = w.receivers ++
      (List.range w.n).map (fun slot => some { batch := w.startAttempts, slot := slot }) ∧
    (w.start spawnResult).1.distTasks = w.distTasks ∧
    (w.start spawnResult).1.startAttempts = w.startAttempts + 1 := by
  cases hb : w.started with
  | true => rw [start_of_started w spawnResult hb] at h; simp at h
  | false =>
    refine ⟨rfl, ?_⟩
    rcases hp : (prepare_inputstream w.inputs).1 with e1 | bs
    · rw [MixedWorker.start]; simp [hb, hp]
    · rcases spawnResult with e2 | u
      · rw [MixedWorker.start]; simp [hb, hp]
      · rw [MixedWorker.start] at h; simp [hb, hp] at h

theorem start_ok_state (w : MixedWorker) (h : w.started = false)
    (hin : w.inputs ≠ []) :
    w.start (Except.ok ()) =
      ({ w with
          receivers := w.receivers ++ (List.range w.n).map
            (fun slot => some { batch := w.startAttempts, slot := slot }),
          startAttempts := w.startAttempts + 1,
          branchTasks := w.branchTasks + w.inputs.length,
          distTasks := w.distTasks + 1,
          distributorBatch := some w.startAttempts,
          started := true }, Except.ok ()) := by
  rcases hn : w.inputs with _ | ⟨u, rest⟩
  · exact absurd hn hin
  · rw [MixedWorker.start]
    simp [h, prepare_inputstream, hn]

/-- C1 (amended): once a handle's first `execute()` has returned a stream,
a second `execute()` on the same handle fails — it can never return a
stream (so no duplicated or stale items are delivered) — but the failure is
a panic from `Option::unwrap` on the already-taken receiver slot, not a
typed error value returned to the caller. -/
theorem execute_twice_panics (w w1 : MixedWorker) (index : Nat)
    (spawn1 spawn2 : Except ErrorCode Unit) (r : Receiver)
    (h : executeOn w index spawn1 = (w1, ExecOutcome.stream r)) :
    (executeOn w1 index spawn2).2 = ExecOutcome.panic RustPanic.unwrapNone ∧
    ∀ r2 : Receiver, (executeOn w1 index spawn2).2 ≠ ExecOutcome.stream r2 := by
  rcases hse : w.start spawn1 with ⟨wa, res⟩
  rw [executeOn, hse] at h
  rcases res with e | u
  · dsimp only at h; simp at h
  · cases u
    dsimp only at h
    rcases hr : wa.receivers[index]? with _ | ro
    · rw [hr] at h; dsimp only at h; simp at h
    · rcases ro with _ | rr
      · rw [hr] at h; dsimp only at h; simp at h
      · rw [hr] at h
        dsimp only at h
        simp only [Prod.mk.injEq, ExecOutcome.stream.injEq] at h
        obtain ⟨hw1, _⟩ := h
        have hstok : (w.start spawn1).2 = Except.ok () := by rw [hse]
        have hwas : wa.started = true := by
          have := start_ok_started w spawn1 hstok
          rwa [hse] at this
        have hlt : index < wa.receivers.length := (List.getElem?_eq_some.mp hr).1
        have hw1s : w1.started = true := by rw [← hw1]; exact hwas
        have hw1r : w1.receivers[index]? = some none := by
          rw [← hw1]
          exact List.getElem?_set_eq_of_lt none hlt
        rw [executeOn, start_of_started w1 spawn2 hw1s]
        simp [hw1r]

/-- C1 witness: the two-execute scenario at `n = 1` with one upstream;
applying `execute_twice_panics` at its concrete input. -/
theorem execute_twice_panics_witness :
    executeOn (connect (create 1) (Upstream.stream [Item.ok ⟨7⟩])).worker 0 (Except.ok ()) =
      ((executeOn (connect (create 1) (Upstream.stream [Item.ok ⟨7⟩])).worker 0
          (Except.ok ())).1,
        ExecOutcome.stream { batch := 0, slot := 0 }) ∧
    (executeOn (executeOn (connect (create 1) (Upstream.stream [Item.ok ⟨7⟩])).worker 0
        (Except.ok ())).1 0 (Except.ok ())).2 =
      ExecOutcome.panic RustPanic.unwrapNone := by
  constructor
  · decide
  · exact (execute_twice_panics
      (connect (create 1) (Upstream.stream [Item.ok ⟨7⟩])).worker
      (executeOn (connect (create 1) (Upstream.stream [Item.ok ⟨7⟩])).worker 0
        (Except.ok ())).1 0 (Except.ok ()) (Except.ok ())
      { batch := 0, slot := 0 } (by decide)).1

/-- C1 counterexample to the claim as stated: in the concrete double-execute
scenario the second call's outcome is the `unwrap`-on-`None` panic and is
not a typed `ErrorCode` failure returned to the caller. -/
theorem execute_twice_no_typed_error_cex :
    (executeHandle (executeHandle (connect (create 1) (Upstream.stream [Item.ok ⟨7⟩]))
        0 (Except.ok ())).1 0 (Except.ok ())).2 =
      ExecOutcome.panic RustPanic.unwrapNone ∧
    ¬ ∃ e : ErrorCode,
      (executeHandle (executeHandle (connect (create 1) (Upstream.stream [Item.ok ⟨7⟩]))
          0 (Except.ok ())).1 0 (Except.ok ())).2 = ExecOutcome.failure e := by
  have h : (executeHandle (executeHandle (connect (create 1)
      (Upstream.stream [Item.ok ⟨7⟩])) 0 (Except.ok ())).1 0 (Except.ok ())).2 =
      ExecOutcome.panic RustPanic.unwrapNone := by decide
  refine ⟨h, ?_⟩
  rintro ⟨e, he⟩
  rw [h] at he
  exact ExecOutcome.noConfusion he

theorem failed_then_connect_state (u : Upstream) (spawn1 : Except ErrorCode Unit)
    (m : Nat) :
    connect (executeHandle (create (m + 1)) 0 spawn1).1 u =
      { worker :=
          { inputs := [u], n := m + 1, sharedNum := 1, started := false,
            receivers := (List.range (m + 1)).map
              (fun slot => some { batch := 0, slot := slot }),
            startAttempts := 1, branchTasks := 0, distTasks := 0,
            distributorBatch := none },
        handles := [0] } := by
  have h1 : (executeHandle (create (m + 1)) 0 spawn1).1 =
      { worker :=
          { inputs := [], n := m + 1, sharedNum := 1, started := false,
            receivers := (List.range (m + 1)).map
              (fun slot => some { batch := 0, slot := slot }),
            startAttempts := 1, branchTasks := 0, distTasks := 0,
            distributorBatch := none },
        handles := [0] } := by
    rw [executeHandle]
    simp [executeOn, MixedWorker.start, create, prepare_inputstream]
  rw [h1]
  rfl

/-- C9: `start()` is not atomic on failure.  Whenever it returns an error it
has already pushed `n` fresh receiver slots (one allocation batch) while
leaving `started` false, so every failed attempt grows `receivers` by `n`;
and in the failed-then-successful scenario (`execute` with no inputs, then
`connect_to`, then `execute` again) the creator's `execute()` takes the slot
of the earliest, orphaned batch 0 — whose sending halves were dropped when
the failed `start` returned — while the spawned distributor feeds batch 1. -/
theorem failed_start_orphans_receivers :
    (∀ (w : MixedWorker) (spawnResult : Except ErrorCode Unit) (e : ErrorCode),
      (w.start spawnResult).2 = Except.error e →
      (w.start spawnResult).1.started = false ∧
      (w.start spawnResult).1.receivers.length = w.receivers.length + w.n) ∧
    (∀ (n : Nat) (u : Upstream) (spawn1 : Except ErrorCode Unit), 1 ≤ n →
      (executeHandle (connect (executeHandle (create n) 0 spawn1).1 u) 0
          (Except.ok ())).2 = ExecOutcome.stream { batch := 0, slot := 0 } ∧
      (executeHandle (connect (executeHandle (create n) 0 spawn1).1 u) 0
          (Except.ok ())).1.worker.distributorBatch = some 1 ∧
      (executeHandle (connect (executeHandle (create n) 0 spawn1).1 u) 0
          (Except.ok ())).1.worker.receivers.length = 2 * n) := by
  constructor
  · intro w spawnResult e h
    obtain ⟨_, hs, hr, _, _⟩ := start_error_state w spawnResult e h
    exact ⟨hs, by rw [hr]; simp⟩
  · intro n u spawn1 hn
    obtain ⟨m, rfl⟩ : ∃ m, n = m + 1 := ⟨n - 1, by omega⟩
    rw [failed_then_connect_state u spawn1 m, executeHandle, executeOn]
    rw [start_ok_state _ rfl (by simp)]
    have hhead : ((List.range (m + 1)).map
        (fun slot => some ({ batch := 0, slot := slot } : Receiver)) ++
        (List.range (m + 1)).map
          (fun slot => some ({ batch := 1, slot := slot } : Receiver)))[0]? =
        some (some { batch := 0, slot := 0 }) := by
      simp [List.range_succ_eq_map]
    dsimp only
    rw [hhead]
    refine ⟨rfl, rfl, ?_⟩
    simp
    omega

/-- C9 witness: the failed-then-successful start scenario at `n = 1`. -/
theorem failed_start_orphans_receivers_witness :
    (executeHandle (connect (executeHandle (create 1) 0 (Except.ok ())).1
        (Upstream.stream [Item.ok ⟨3⟩])) 0 (Except.ok ())).2 =
      ExecOutcome.stream { batch := 0, slot := 0 } ∧
    (executeHandle (connect (executeHandle (create 1) 0 (Except.ok ())).1
        (Upstream.stream [Item.ok ⟨3⟩])) 0 (Except.ok ())).1.worker.distributorBatch =
      some 1 :=
  ⟨(failed_start_orphans_receivers.2 1 (Upstream.stream [Item.ok ⟨3⟩])
      (Except.ok ()) (by omega)).1,
   (failed_start_orphans_receivers.2 1 (Upstream.stream [Item.ok ⟨3⟩])
      (Except.ok ()) (by omega)).2.1⟩

theorem start_preserves_basic (w : MixedWorker) (spawnResult : Except ErrorCode Unit) :
    (w.start spawnResult).1.n = w.n ∧
    (w.start spawnResult).1.sharedNum = w.sharedNum ∧
    (w.start spawnResult).1.inputs = w.inputs := by
  cases hb : w.started with
  | true => rw [start_of_started w spawnResult hb]; exact ⟨rfl, rfl, rfl⟩
  | false =>
    rcases hp : (prepare_inputstream w.inputs).1 with e1 | bs
    · rw [MixedWorker.start]; simp [hb, hp]
    · rcases spawnResult with e2 | u <;> (rw [MixedWorker.start]; simp [hb, hp])

theorem start_receivers_of_not_started (w : MixedWorker)
    (spawnResult : Except ErrorCode Unit) (hb : w.started = false) :
    (w.start spawnResult).1.receivers = w.receivers ++
      (List.range w.n).map (fun slot => some { batch := w.startAttempts, slot := slot }) := by
  rcases hp : (prepare_inputstream w.inputs).1 with e1 | bs
  · rw [MixedWorker.start]; simp [hb, hp]
  · rcases spawnResult with e2 | u <;> (rw [MixedWorker.start]; simp [hb, hp])

theorem start_preserves_inv (w : MixedWorker) (spawnResult : Except ErrorCode Unit)
    (h1 : w.started = true → w.n ≤ w.receivers.length)
    (h2 : w.distTasks = if w.started then 1 else 0) :
    ((w.start spawnResult).1.started = true →
      (w.start spawnResult).1.n ≤ (w.start spawnResult).1.receivers.length) ∧
    (w.start spawnResult).1.distTasks =
      if (w.start spawnResult).1.started then 1 else 0 := by
  cases hb : w.started with
  | true => rw [start_of_started w spawnResult hb]; exact ⟨h1, h2⟩
  | false =>
    have hd : w.distTasks = 0 := by rw [h2, hb]; rfl
    rcases hp : (prepare_inputstream w.inputs).1 with e1 | bs
    · rw [MixedWorker.start]; simp [hb, hp, hd]
    · rcases spawnResult with e2 | u
      · rw [MixedWorker.start]; simp [hb, hp, hd]
      · rw [MixedWorker.start]; simp [hb, hp, hd]

theorem executeOn_state (w : MixedWorker) (index : Nat)
    (spawnResult : Except ErrorCode Unit) :
    (executeOn w index spawnResult).1 = (w.start spawnResult).1 ∨
    (executeOn w index spawnResult).1 =
      { (w.start spawnResult).1 with
        receivers := (w.start spawnResult).1.receivers.set index none } := by
  rcases hse : w.start spawnResult with ⟨w1, res⟩
  rw [executeOn, hse]
  rcases res with e | u
  · dsimp only; left; rfl
  · dsimp only
    rcases hr : w1.receivers[index]? with _ | o
    · left; rfl
    · rcases o with _ | r
      · left; rfl
      · right; rfl

theorem executeHandle_handles (s : SysState) (index : Nat)
    (spawnResult : Except ErrorCode Unit) :
    (executeHandle s index spawnResult).1.handles = s.handles := rfl

/-- The inductive invariant of the handle-issuing and start protocol over
the reachable states: issued indices are distinct and below `shared_num`
(and below `n` when `n ≥ 1`), a started worker has at least `n` receiver
slots, and the distributor-task counter equals the `started` indicator. -/
theorem reach_inv (s : SysState) (h : Reach s) :
    s.handles.Nodup ∧
    (∀ i ∈ s.handles, i < s.worker.sharedNum) ∧
    (1 ≤ s.worker.n → ∀ i ∈ s.handles, i < s.worker.n) ∧
    (s.worker.started = true → s.worker.n ≤ s.worker.receivers.length) ∧
    s.worker.distTasks = (if s.worker.started then 1 else 0) := by
  induction h with
  | created n =>
    refine ⟨by simp [create], ?_, ?_, ?_, ?_⟩
    · intro i hi; simp [create] at hi; simp [hi, create]
    · intro hn i hi
      simp [create] at hn hi
      simp [create, hi]
      omega
    · intro hs; simp [create] at hs
    · simp [create]
  | step s t hs hstep ih =>
    obtain ⟨ih1, ih2, ih3, ih4, ih5⟩ := ih
    cases hstep with
    | connect u =>
      exact ⟨ih1, ih2, ih3, ih4, ih5⟩
    | share =>
      by_cases hc : s.worker.sharedNum ≥ s.worker.n
      · rw [share]
        simp only [hc, ge_iff_le, if_true]
        refine ⟨ih1, ?_, ?_, ih4, ih5⟩
        · intro i hi; have := ih2 i hi; omega
        · intro hn i hi; exact ih3 hn i hi
      · rw [share]
        simp only [hc, ge_iff_le, if_false]
        refine ⟨?_, ?_, ?_, ih4, ih5⟩
        · rw [List.nodup_append]
          refine ⟨ih1, by simp, ?_⟩
          intro a ha hb
          simp at hb
          subst hb
          exact absurd (ih2 _ ha) (lt_irrefl _)
        · intro i hi
          rcases List.mem_append.mp hi with hl | hr
          · have := ih2 i hl; omega
          · simp at hr; omega
        · intro hn i hi
          rcases List.mem_append.mp hi with hl | hr
          · exact ih3 hn i hl
          · simp at hr; omega
    | execute index spawnResult hmem =>
      have hh : (executeHandle s index spawnResult).1.handles = s.handles :=
        executeHandle_handles s index spawnResult
      have hbasic := start_preserves_basic s.worker spawnResult
      have hinv := start_preserves_inv s.worker spawnResult ih4 ih5
      have hstate := executeOn_state s.worker index spawnResult
      have hw : (executeHandle s index spawnResult).1.worker =
          (executeOn s.worker index spawnResult).1 := rfl
      rcases hstate with he | he
      · rw [hw, he, hh]
        refine ⟨ih1, ?_, ?_, hinv.1, hinv.2⟩
        · intro i hi
          have h2 := hbasic.2.1
          have := ih2 i hi
          omega
        · intro hn i hi
          have h1 := hbasic.1
          have := ih3 (by omega) i hi
          omega
      · rw [hw, he, hh]
        refine ⟨ih1, ?_, ?_, ?_, ?_⟩
        · intro i hi
          have h2 := hbasic.2.1
          have := ih2 i hi
          simp only []
          omega
        · intro hn i hi
          have h1 := hbasic.1
          simp only [] at hn
          have := ih3 (by omega) i hi
          simp only []
          omega
        · intro hstarted
          simp at hstarted ⊢
          have := hinv.1 hstarted
          simpa using this
        · simpa using hinv.2

theorem executeOn_no_oob (w : MixedWorker) (index : Nat)
    (spawnResult : Except ErrorCode Unit) (hidx : index < w.n)
    (hinv : w.started = true → w.n ≤ w.receivers.length) :
    (executeOn w index spawnResult).2 ≠ ExecOutcome.panic RustPanic.indexOutOfBounds := by
  rcases hse : w.start spawnResult with ⟨w1, res⟩
  rw [executeOn, hse]
  rcases res with e | u
  · dsimp only; simp
  · dsimp only
    have hlen : index < w1.receivers.length := by
      cases hb : w.started with
      | true =>
        have : w.start spawnResult = (w, Except.ok ()) := start_of_started w spawnResult hb
        rw [this] at hse
        obtain ⟨rfl, -⟩ : w1 = w ∧ True := by
          refine ⟨?_, trivial⟩
          have := congrArg Prod.fst hse
          simpa using this.symm
        have := hinv hb
        omega
      | false =>
        have hr := start_receivers_of_not_started w spawnResult hb
        rw [hse] at hr
        dsimp only at hr
        rw [hr, List.length_append, List.length_map, List.length_range]
        omega
    rcases hr : w1.receivers[index]? with _ | o
    · have := List.getElem?_eq_none_iff.mp hr
      omega
    · rcases o with _ | r
      · simp
      · simp

/-- C2 (amended): `start()` is idempotent — if `started` is already set it
returns `Ok` with no state change — and `started` is set only after the
distributor spawn succeeds (a failed spawn leaves it unchanged).  Of the
task graph, only the fan-out distributor task is spawned at most once
across the worker's lifetime (on every reachable state the distributor-task
count equals the `started` indicator, so it is exactly one from the first
fully successful start on and never more).  Neither channel allocation nor
the fan-in branch tasks are once-per-lifetime: every start attempt that
finds `started` false pushes `n` fresh receiver slots, and every such
attempt with at least one registered input also spawns the `M` fan-in
branch tasks anew — `prepare_inputstream` runs, and spawns, before the
distributor's fallible `execute_task`, so a failed distributor spawn
followed by a retry spawns the branch tasks twice. -/
theorem start_single_spawn :
    (∀ (w : MixedWorker) (spawnResult : Except ErrorCode Unit), w.started = true →
      w.start spawnResult = (w, Except.ok ())) ∧
    (∀ (w : MixedWorker) (e : ErrorCode),
      (w.start (Except.error e)).1.started = w.started ∧
      (w.start (Except.error e)).1.distTasks = w.distTasks) ∧
    (∀ s : SysState, Reach s →
      s.worker.distTasks = (if s.worker.started then 1 else 0)) ∧
    (∀ (w : MixedWorker) (spawnResult : Except ErrorCode Unit), w.started = false →
      (w.start spawnResult).1.receivers.length = w.receivers.length + w.n) ∧
    (∀ (w : MixedWorker) (spawnResult : Except ErrorCode Unit), w.started = false →
      w.inputs ≠ [] →
      (w.start spawnResult).1.branchTasks = w.branchTasks + w.inputs.length) := by
  refine ⟨start_of_started, ?_, ?_, ?_, ?_⟩
  · intro w e
    cases hb : w.started with
    | true => rw [start_of_started w _ hb]; exact ⟨hb, rfl⟩
    | false =>
      rcases hp : (prepare_inputstream w.inputs).1 with e1 | bs
      · rw [MixedWorker.start]; simp [hb, hp]
      · rw [MixedWorker.start]; simp [hb, hp]
  · intro s h
    exact (reach_inv s h).2.2.2.2
  · intro w spawnResult hb
    rw [start_receivers_of_not_started w spawnResult hb]
    simp
  · intro w spawnResult hb hin
    rcases hn : w.inputs with _ | ⟨u, rest⟩
    · exact absurd hn hin
    · rcases spawnResult with e2 | u2 <;>
        (rw [MixedWorker.start]; simp [hb, hn, prepare_inputstream])

/-- C2 witness: idempotence at a started worker, the distributor-spawn
count on a reachable state, the per-attempt channel allocation, and the
per-attempt branch-task spawning, each at a concrete input. -/
theorem start_single_spawn_witness :
    (executeHandle (connect (create 1) (Upstream.stream [])) 0
        (Except.ok ())).1.worker.start (Except.ok ()) =
      ((executeHandle (connect (create 1) (Upstream.stream [])) 0
        (Except.ok ())).1.worker, Except.ok ()) ∧
    (create 1).worker.distTasks = (if (create 1).worker.started then 1 else 0) ∧
    ((create 1).worker.start (Except.ok ())).1.receivers.length =
      (create 1).worker.receivers.length + (create 1).worker.n ∧
    ((connect (create 1) (Upstream.stream [])).worker.start
        (Except.error (ErrorCode.logicalError "task rejected"))).1.branchTasks =
      (connect (create 1) (Upstream.stream [])).worker.branchTasks +
        (connect (create 1) (Upstream.stream [])).worker.inputs.length :=
  ⟨start_single_spawn.1 _ (Except.ok ()) (by decide),
   start_single_spawn.2.2.1 _ (Reach.created 1),
   start_single_spawn.2.2.2.1 _ (Except.ok ()) (by decide),
   start_single_spawn.2.2.2.2 _
     (Except.error (ErrorCode.logicalError "task rejected"))
     (by decide) (by decide)⟩

/-- C2 counterexample to "the channel allocation and the fan-in/fan-out
task graph are built and spawned exactly once across the worker's
lifetime": with one upstream wired, an `execute()` whose distributor
`execute_task` is rejected spawns the branch task and allocates a channel
batch but leaves `started` false, and the retry does both again — the final
state has two channel batches and the fan-in branch task spawned twice,
while the distributor ran once. -/
theorem start_allocation_not_once_cex :
    (executeHandle (executeHandle (connect (create 1) (Upstream.stream []))
        0 (Except.error (ErrorCode.logicalError "task rejected"))).1
        0 (Except.ok ())).1.worker.branchTasks = 2 ∧
    (executeHandle (executeHandle (connect (create 1) (Upstream.stream []))
        0 (Except.error (ErrorCode.logicalError "task rejected"))).1
        0 (Except.ok ())).1.worker.receivers.length = 2 ∧
    (executeHandle (executeHandle (connect (create 1) (Upstream.stream []))
        0 (Except.error (ErrorCode.logicalError "task rejected"))).1
        0 (Except.ok ())).1.worker.startAttempts = 2 ∧
    (executeHandle (executeHandle (connect (create 1) (Upstream.stream []))
        0 (Except.error (ErrorCode.logicalError "task rejected"))).1
        0 (Except.ok ())).1.worker.distTasks = 1 ∧
    (executeHandle (executeHandle (connect (create 1) (Upstream.stream []))
        0 (Except.error (ErrorCode.logicalError "task rejected"))).1
        0 (Except.ok ())).1.worker.started = true := by
  decide

/-- C8 (amended): provided the fan-out width is at least 1, every issued
handle's index lies in `[0, n)` and the indices are pairwise distinct;
handle records are only ever appended (an index is never reused or
reassigned), and immediately after a successful issuance (`create` with
`n ≥ 1`, or a successful `share`) `shared_num` does not exceed `n`.  The
`n ≥ 1` proviso is forced: `create 0` issues index 0 outside `[0, 0)`. -/
theorem handle_indices_unique :
    (∀ s : SysState, Reach s → 1 ≤ s.worker.n →
      s.handles.Nodup ∧ ∀ i ∈ s.handles, i < s.worker.n) ∧
    (∀ s t : SysState, Step s t → ∃ new, t.handles = s.handles ++ new) ∧
    (∀ (s : SysState) (i : Nat), (share s).2 = Except.ok i →
      (share s).1.worker.sharedNum ≤ (share s).1.worker.n ∧
      (share s).1.handles = s.handles ++ [i]) ∧
    (∀ n : Nat, 1 ≤ n → (create n).worker.sharedNum ≤ (create n).worker.n) := by
  refine ⟨?_, ?_, ?_, ?_⟩
  · intro s h hn
    exact ⟨(reach_inv s h).1, (reach_inv s h).2.2.1 hn⟩
  · intro s t hstep
    cases hstep with
    | connect u => exact ⟨[], by simp [connect]⟩
    | share =>
      by_cases hc : s.worker.sharedNum ≥ s.worker.n
      · exact ⟨[], by rw [share]; simp [hc]⟩
      · exact ⟨[s.worker.sharedNum], by rw [share]; simp [hc]⟩
    | execute index spawnResult hmem => exact ⟨[], by simp [executeHandle]⟩
  · intro s i h
    by_cases hc : s.worker.sharedNum ≥ s.worker.n
    · rw [share_error_of_ge s hc] at h
      exact Except.noConfusion h
    · have hok := share_ok_of_lt s (by omega)
      rw [hok] at h
      have hi : i = s.worker.sharedNum := (Except.ok.injEq _ _ ▸ h).symm
      subst hi
      constructor
      · rw [share]
        simp [hc]
        omega
      · rw [share]
        simp [hc]
  · intro n hn
    simp [create]
    omega

/-- C8 witness: the first share on `create 2` issues index 1; all invariant
conjuncts at concrete reachable states. -/
theorem handle_indices_unique_witness :
    ((share (create 2)).1.handles.Nodup ∧
      ∀ i ∈ (share (create 2)).1.handles, i < (share (create 2)).1.worker.n) ∧
    (∃ new, (share (create 2)).1.handles = (create 2).handles ++ new) ∧
    ((share (create 2)).1.worker.sharedNum ≤ (share (create 2)).1.worker.n ∧
      (share (create 2)).1.handles = (create 2).handles ++ [1]) ∧
    (create 2).worker.sharedNum ≤ (create 2).worker.n :=
  ⟨handle_indices_unique.1 _
      (Reach.step _ _ (Reach.created 2) (Step.share _)) (by decide),
   handle_indices_unique.2.1 _ _ (Step.share _),
   handle_indices_unique.2.2.1 _ 1 (by rfl),
   handle_indices_unique.2.2.2 2 (by decide)⟩

/-- C8 counterexample to the claim as stated: `create 0` issues the creator
at index 0, which is not in `[0, 0)`, and leaves `shared_num = 1 > n = 0`
immediately after that successful issuance. -/
theorem create_zero_index_out_of_range_cex :
    (create 0).handles = [0] ∧ ¬ 0 < (create 0).worker.n ∧
    (create 0).worker.n < (create 0).worker.sharedNum := by
  decide

theorem distributorRun_ok_spec (outputs : Nat) (h : 1 ≤ outputs) :
    ∀ (merged : List Item) (c : Nat), ∃ tagged : List (Nat × Item),
      distributorRun outputs c merged = Except.ok tagged ∧
      tagged.map Prod.snd = merged ∧
      ∀ (p : Nat) (item : Item), merged[p]? = some item →
        tagged[p]? = some ((c + p) % outputs, item) := by
  intro merged
  induction merged with
  | nil => intro c; exact ⟨[], rfl, rfl, by simp⟩
  | cons item rest ih =>
    intro c
    obtain ⟨tagged, h1, h2, h3⟩ := ih (c + 1)
    have h0 : ¬ outputs = 0 := by omega
    refine ⟨(c % outputs, item) :: tagged, ?_, ?_, ?_⟩
    · rw [distributorRun]
      simp [h0, h1, Except.map]
    · simp [h2]
    · intro p it hp
      cases p with
      | zero =>
        simp at hp
        simp [hp]
      | succ p =>
        simp at hp
        have := h3 p it hp
        simp [this]
        rw [show c + (p + 1) = c + 1 + p by omega]

/-- C10: `create` accepts `n = 0` and still issues the creator at index 0;
with an upstream wired, that creator's `execute()` hits the `receivers[0]`
out-of-bounds panic (`start` allocated zero channels), and any item reaching
the distributor makes it compute `counter % 0`, a remainder-by-zero panic.
Under the unstated precondition `n ≥ 1` both branches are unreachable:
`execute()` from an issued handle of a reachable state never raises the
out-of-bounds panic, and the distributor never takes a remainder by zero. -/
theorem n_zero_execute_panics :
    (create 0).handles = [0] ∧
    (∀ w : MixedWorker, w.n = 0 → w.receivers = [] → w.started = false →
      w.inputs ≠ [] →
      (executeOn w 0 (Except.ok ())).2 = ExecOutcome.panic RustPanic.indexOutOfBounds) ∧
    (∀ (item : Item) (rest : List Item) (c : Nat),
      distributorRun 0 c (item :: rest) = Except.error RustPanic.remainderByZero) ∧
    (∀ (s : SysState) (index : Nat) (spawnResult : Except ErrorCode Unit),
      Reach s → 1 ≤ s.worker.n → index ∈ s.handles →
      (executeHandle s index spawnResult).2 ≠
        ExecOutcome.panic RustPanic.indexOutOfBounds) ∧
    (∀ (outputs c : Nat) (merged : List Item), 1 ≤ outputs →
      distributorRun outputs c merged ≠ Except.error RustPanic.remainderByZero) := by
  refine ⟨rfl, ?_, ?_, ?_, ?_⟩
  · intro w hn hrecv hstarted hin
    rw [executeOn, start_ok_state w hstarted hin]
    dsimp only
    rw [hn, hrecv]
    simp
  · intro item rest c
    rfl
  · intro s index spawnResult hreach hn hmem
    have hinv := reach_inv s hreach
    have hidx : index < s.worker.n := hinv.2.2.1 hn index hmem
    exact executeOn_no_oob s.worker index spawnResult hidx hinv.2.2.2.1
  · intro outputs c merged h hcontra
    obtain ⟨tagged, h1, -, -⟩ := distributorRun_ok_spec outputs h merged c
    rw [h1] at hcontra
    exact Except.noConfusion hcontra

/-- C10 witness: the out-of-bounds panic at `n = 0` with one upstream, the
remainder-by-zero panic on a one-item stream, and the panic-freedom of the
creator's `execute()` at `n = 1`. -/
theorem n_zero_execute_panics_witness :
    (executeOn (connect (create 0) (Upstream.stream [Item.ok ⟨1⟩])).worker 0
        (Except.ok ())).2 = ExecOutcome.panic RustPanic.indexOutOfBounds ∧
    distributorRun 0 0 [Item.ok ⟨1⟩] = Except.error RustPanic.remainderByZero ∧
    (executeHandle (create 1) 0 (Except.ok ())).2 ≠
      ExecOutcome.panic RustPanic.indexOutOfBounds :=
  ⟨n_zero_execute_panics.2.1 _ (by decide) (by decide) (by decide) (by decide),
   n_zero_execute_panics.2.2.1 (Item.ok ⟨1⟩) [] 0,
   n_zero_execute_panics.2.2.2.1 _ 0 (Except.ok ()) (Reach.created 1)
     (by decide) (by decide)⟩

/-- C5: with fan-out width `outputs ≥ 1` the distributor never panics, the
item at merged position `p` is routed to output channel `p % outputs`, and
every output channel receives a subsequence of the merged stream in the
merged stream's relative order. -/
theorem round_robin_distribution (outputs : Nat) (merged : List Item)
    (h : 1 ≤ outputs) :
    ∃ tagged : List (Nat × Item),
      distributorRun outputs 0 merged = Except.ok tagged ∧
      (∀ (p : Nat) (item : Item), merged[p]? = some item →
        tagged[p]? = some (p % outputs, item)) ∧
      ∀ j : Nat, (outputChannel outputs merged j).Sublist merged := by
  obtain ⟨tagged, h1, h2, h3⟩ := distributorRun_ok_spec outputs h merged 0
  refine ⟨tagged, h1, ?_, ?_⟩
  · intro p item hp
    have := h3 p item hp
    simpa using this
  · intro j
    rw [outputChannel, h1]
    have hsub : ((tagged.filter (fun q => q.1 == j)).map Prod.snd).Sublist
        (tagged.map Prod.snd) :=
      List.Sublist.map Prod.snd (List.filter_sublist tagged)
    rw [h2] at hsub
    exact hsub

/-- C5 witness: the concrete distribution of a three-item merged stream over
two outputs. -/
theorem round_robin_distribution_witness :
    ∃ tagged : List (Nat × Item),
      distributorRun 2 0 [Item.ok ⟨0⟩, Item.ok ⟨1⟩, Item.ok ⟨2⟩] =
        Except.ok tagged ∧
      (∀ (p : Nat) (item : Item),
        [Item.ok ⟨0⟩, Item.ok ⟨1⟩, Item.ok ⟨2⟩][p]? = some item →
        tagged[p]? = some (p % 2, item)) ∧
      ∀ j : Nat,
        (outputChannel 2 [Item.ok ⟨0⟩, Item.ok ⟨1⟩, Item.ok ⟨2⟩] j).Sublist
          [Item.ok ⟨0⟩, Item.ok ⟨1⟩, Item.ok ⟨2⟩] :=
  round_robin_distribution 2 [Item.ok ⟨0⟩, Item.ok ⟨1⟩, Item.ok ⟨2⟩] (by omega)

theorem forwardItems_all_ok (l : List Item)
    (hok : ∀ x ∈ l, ∃ b, x = Item.ok b) : forwardItems l = l := by
  induction l with
  | nil => rfl
  | cons x rest ih =>
    obtain ⟨b, rfl⟩ := hok x (by simp)
    rw [forwardItems, ih (fun y hy => hok y (by simp [hy]))]

theorem forwardItems_ok_front (pre : List Item) (e : ErrorCode) (post : List Item)
    (hok : ∀ x ∈ pre, ∃ b, x = Item.ok b) :
    forwardItems (pre ++ Item.err e :: post) = pre ++ [Item.err e] := by
  induction pre with
  | nil => rfl
  | cons x rest ih =>
    obtain ⟨b, rfl⟩ := hok x (by simp)
    have hstep : forwardItems (Item.ok b :: (rest ++ Item.err e :: post)) =
        Item.ok b :: forwardItems (rest ++ Item.err e :: post) := rfl
    rw [List.cons_append, hstep, ih (fun y hy => hok y (by simp [hy])),
      List.cons_append]

/-- C6: the per-branch failure policy.  A branch whose upstream `execute()`
fails forwards exactly one error item and stops; a branch whose stream hits
a mid-stream error forwards the items before it, in order, then that error
item, and nothing further; and each branch's forwarded output is a function
of its own upstream alone — replacing a sibling upstream leaves it
untouched. -/
theorem branch_error_policy :
    (∀ e : ErrorCode, branchForward (Upstream.execFail e) = [Item.err e]) ∧
    (∀ (pre : List Item) (e : ErrorCode) (post : List Item),
      (∀ x ∈ pre, ∃ b, x = Item.ok b) →
      branchForward (Upstream.stream (pre ++ Item.err e :: post)) =
        pre ++ [Item.err e]) ∧
    (∀ (inputs : List Upstream) (j : Nat) (u : Upstream) (i : Nat), i ≠ j →
      ((inputs.set j u).map branchForward)[i]? =
        (inputs.map branchForward)[i]?) := by
  refine ⟨fun e => rfl, ?_, ?_⟩
  · intro pre e post hok
    rw [branchForward]
    exact forwardItems_ok_front pre e post hok
  · intro inputs j u i hij
    rw [List.getElem?_map, List.getElem?_map, List.getElem?_set_ne (Ne.symm hij)]

/-- C6 witness: upstream B of the P7 scenario — one good item, then an
error, then an unreached item — forwards exactly its first item and the
error; an `execute`-failing upstream forwards one error item; replacing a
sibling leaves a branch's output unchanged. -/
theorem branch_error_policy_witness :
    branchForward (Upstream.execFail (ErrorCode.logicalError "boom")) =
      [Item.err (ErrorCode.logicalError "boom")] ∧
    branchForward (Upstream.stream
        ([Item.ok ⟨1⟩] ++ Item.err (ErrorCode.logicalError "mid") :: [Item.ok ⟨2⟩])) =
      [Item.ok ⟨1⟩] ++ [Item.err (ErrorCode.logicalError "mid")] ∧
    (([Upstream.stream [Item.ok ⟨1⟩], Upstream.stream [Item.ok ⟨2⟩]].set 0
        (Upstream.execFail (ErrorCode.logicalError "boom"))).map branchForward)[1]? =
      ([Upstream.stream [Item.ok ⟨1⟩], Upstream.stream [Item.ok ⟨2⟩]].map
        branchForward)[1]? :=
  ⟨branch_error_policy.1 (ErrorCode.logicalError "boom"),
   branch_error_policy.2.1 [Item.ok ⟨1⟩] (ErrorCode.logicalError "mid")
     [Item.ok ⟨2⟩]
     (by rintro x hx; simp at hx; subst hx; exact ⟨_, rfl⟩),
   branch_error_policy.2.2 [Upstream.stream [Item.ok ⟨1⟩],
     Upstream.stream [Item.ok ⟨2⟩]] 0
     (Upstream.execFail (ErrorCode.logicalError "boom")) 1 (by omega)⟩

theorem getElem?_split {α : Type} (bs : List α) (i : Nat) (v : α)
    (h : bs[i]? = some v) : ∃ pre suf, bs = pre ++ v :: suf ∧ pre.length = i := by
  induction bs generalizing i with
  | nil => simp at h
  | cons b rest ih =>
    cases i with
    | zero =>
      simp at h
      exact ⟨[], rest, by simp [h], rfl⟩
    | succ i =>
      simp at h
      obtain ⟨pre, suf, heq, hlen⟩ := ih i h
      exact ⟨b :: pre, suf, by simp [heq], by simp [hlen]⟩

theorem set_at_length_append {α : Type} (pre suf : List α) (a b : α) :
    (pre ++ a :: suf).set pre.length b = pre ++ b :: suf := by
  induction pre with
  | nil => rfl
  | cons x rest ih => simp [List.set, ih]

/-- The merged stream of a fan-in is a permutation of the concatenation of
the branch sequences: every forwarded item appears exactly once. -/
theorem interleaving_flatten_perm {bs : List (List Item)} {merged : List Item}
    (h : Interleaving bs merged) : List.Perm merged bs.flatten := by
  induction h with
  | done bs hall =>
    have hj : bs.flatten = [] := List.flatten_eq_nil_iff.mpr hall
    rw [hj]
  | deliver bs i x rest merged hget hI ih =>
    obtain ⟨pre, suf, rfl, hlen⟩ := getElem?_split bs i (x :: rest) hget
    subst hlen
    rw [set_at_length_append] at ih
    have hj1 : (pre ++ (x :: rest) :: suf).flatten =
        pre.flatten ++ (x :: (rest ++ suf.flatten)) := by
      rw [List.flatten_append, List.flatten_cons]
      simp
    have hj2 : (pre ++ rest :: suf).flatten =
        pre.flatten ++ (rest ++ suf.flatten) := by
      rw [List.flatten_append, List.flatten_cons]
    rw [hj1]
    refine List.Perm.trans ?_ List.perm_middle.symm
    rw [hj2] at ih
    exact ih.cons x

/-- Each branch's forwarded sequence embeds into the merged stream in
order. -/
theorem interleaving_sublist {bs : List (List Item)} {merged : List Item}
    (h : Interleaving bs merged) :
    ∀ (i : Nat) (b : List Item), bs[i]? = some b → b.Sublist merged := by
  induction h with
  | done bs hall =>
    intro i b hb
    obtain ⟨hl, rfl⟩ := List.getElem?_eq_some.mp hb
    rw [hall _ (List.getElem_mem hl)]
  | deliver bs i0 x rest merged hget hI ih =>
    intro j b hb
    by_cases hj : j = i0
    · subst hj
      rw [hget] at hb
      obtain rfl : b = x :: rest := by
        exact (Option.some.injEq _ _ ▸ hb).symm
      have hlt : j < bs.length := (List.getElem?_eq_some.mp hget).1
      have hrest : rest.Sublist merged :=
        ih j rest (by rw [List.getElem?_set_eq_of_lt rest hlt])
      exact hrest.cons₂ x
    · have hb2 : (bs.set i0 rest)[j]? = some b := by
        rw [List.getElem?_set_ne (Ne.symm hj)]
        exact hb
      exact (ih j b hb2).cons x

/-- C7: fan-in completeness.  For `M ≥ 1` finite error-free upstream
streams, every possible arrival order of the merged stream is finite with
length the sum of the upstream lengths, its items are exactly the upstream
items (a permutation — hence equal as multisets — of their concatenation:
nothing duplicated, nothing dropped), and each upstream's items occur in the
merged stream in their original relative order. -/
theorem fan_in_completeness (streams : List (List Item)) (merged : List Item)
    (hM : 1 ≤ streams.length)
    (hok : ∀ l ∈ streams, ∀ x ∈ l, ∃ b, x = Item.ok b)
    (hI : Interleaving ((streams.map Upstream.stream).map branchForward) merged) :
    merged.length = (streams.map List.length).sum ∧
    List.Perm merged streams.flatten ∧
    (merged : Multiset Item) = (streams.flatten : Multiset Item) ∧
    ∀ l ∈ streams, l.Sublist merged := by
  have hmap : (streams.map Upstream.stream).map branchForward = streams := by
    rw [List.map_map]
    have hcong : ∀ l ∈ streams, (branchForward ∘ Upstream.stream) l = id l :=
      fun l hl => forwardItems_all_ok l (hok l hl)
    rw [List.map_congr_left hcong, List.map_id]
  rw [hmap] at hI
  have hperm := interleaving_flatten_perm hI
  refine ⟨?_, hperm, Multiset.coe_eq_coe.mpr hperm, ?_⟩
  · rw [hperm.length_eq, List.length_flatten]
  · intro l hl
    obtain ⟨i, hi, rfl⟩ := List.mem_iff_getElem.mp hl
    exact interleaving_sublist hI i _
      (by rw [List.getElem?_eq_getElem hi])

/-- C7 witness: two one-item upstreams and the arrival order that delivers
the first upstream's item first. -/
theorem fan_in_completeness_witness :
    [Item.ok ⟨1⟩, Item.ok ⟨2⟩].length =
      ([[Item.ok ⟨1⟩], [Item.ok ⟨2⟩]].map List.length).sum ∧
    List.Perm [Item.ok ⟨1⟩, Item.ok ⟨2⟩] [[Item.ok ⟨1⟩], [Item.ok ⟨2⟩]].flatten ∧
    (([Item.ok ⟨1⟩, Item.ok ⟨2⟩] : List Item) : Multiset Item) =
      (([[Item.ok ⟨1⟩], [Item.ok ⟨2⟩]].flatten : List Item) : Multiset Item) ∧
    ∀ l ∈ [[Item.ok ⟨1⟩], [Item.ok ⟨2⟩]],
      l.Sublist [Item.ok ⟨1⟩, Item.ok ⟨2⟩] := by
  have hI : Interleaving
      (([[Item.ok ⟨1⟩], [Item.ok ⟨2⟩]].map Upstream.stream).map branchForward)
      [Item.ok ⟨1⟩, Item.ok ⟨2⟩] := by
    show Interleaving [[Item.ok ⟨1⟩], [Item.ok ⟨2⟩]] [Item.ok ⟨1⟩, Item.ok ⟨2⟩]
    refine Interleaving.deliver _ 0 (Item.ok ⟨1⟩) [] _ rfl ?_
    refine Interleaving.deliver _ 1 (Item.ok ⟨2⟩) [] _ rfl ?_
    refine Interleaving.done _ ?_
    intro b hb
    simp at hb
    exact hb
  exact fan_in_completeness [[Item.ok ⟨1⟩], [Item.ok ⟨2⟩]]
    [Item.ok ⟨1⟩, Item.ok ⟨2⟩] (by decide)
    (by
      intro l hl x hx
      simp at hl
      rcases hl with rfl | rfl <;> (simp at hx; subst hx; exact ⟨_, rfl⟩))
    hI

end MixedProc
